import Mathlib

/-!
# Verification of the KImageFormats IFF chunk parser and pixel reconstruction

A shallow embedding of `src/imageformats/chunks.cpp` (IFF/ILBM chunk tree
parser, BMHD/CMAP/CAMG typed decoders, BODY plane deinterleaver, Maya RLE
decompressor) and of the row-reading loop of `IFFHandler::readStandardImage`.

Bytes are modelled as `Nat` values; C++ narrowing casts are made explicit with
`% 256` (via `u8`).  `QIODevice` is modelled as an immutable byte list plus a
cursor, with the read-only `QBuffer` semantics for `seek` (seeking past the
end fails, seeking backward succeeds).  Fallible operations return `Option`.

The parser models the chunk kinds exercised here (FORM containers with the
ILBM/PBM/ACBM form types, the BMHD/CMAP/CAMG cached leaves, BODY, and the
generic opaque chunk used for every unrecognized tag).  The remaining entries
of the dispatch table in `IFFChunk::innerFromDevice` (metadata chunks, the
Maya FOR4 family) only differ in which decoder caches the payload; they do
not change the structural positions computed by the parser.
-/

set_option autoImplicit false

namespace KIF

/-- Truncation to an 8-bit value (C++ `quint8` narrowing). -/
def u8 (n : Nat) : Nat := n % 256

/-- Signed `char` view of a byte (x86 `char` is signed), used by the
comparisons in `IFFChunk::isValid`. -/
def sChar (b : Nat) : Int := if b % 256 < 128 then (b % 256 : Int) else (b % 256 : Int) - 256

/-- Modelled from the spec: `ui16` is a byte-assembly helper from
`chunks_p.h`, which is not among the sources; call sites pass the
most-significant byte last, so `ui16 l0 l1` is `l0 + l1·2⁸` on 8-bit values
(big-endian fields per §4.3 of the spec). -/
def ui16 (l0 l1 : Nat) : Nat := u8 l0 + 256 * u8 l1

/-- Modelled from the spec: `ui32` from `chunks_p.h` (not among the sources);
`ui32 l0 l1 l2 l3` assembles the 32-bit value with `l3` most significant. -/
def ui32 (l0 l1 l2 l3 : Nat) : Nat :=
  u8 l0 + 256 * u8 l1 + 65536 * u8 l2 + 16777216 * u8 l3

/-- Modelled from the spec: `i16` from `chunks_p.h` (not among the sources);
the signed 16-bit (two's complement) reading of two bytes. -/
def i16 (l0 l1 : Nat) : Int :=
  let v := ui16 l0 l1
  if v < 32768 then (v : Int) else (v : Int) - 65536

/-! Four-byte tags, as byte lists (`"BMHD"`, `"FORM"`, ...). -/

def BMHD_CHUNK : List Nat := [66, 77, 72, 68]
def BODY_CHUNK : List Nat := [66, 79, 68, 89]
def CAMG_CHUNK : List Nat := [67, 65, 77, 71]
def CMAP_CHUNK : List Nat := [67, 77, 65, 80]
def FORM_CHUNK : List Nat := [70, 79, 82, 77]
def CAT__CHUNK : List Nat := [67, 65, 84, 32]
def FILL_CHUNK : List Nat := [32, 32, 32, 32]
def LIST_CHUNK : List Nat := [76, 73, 83, 84]
def PROP_CHUNK : List Nat := [80, 82, 79, 80]
def ILBM_FORM_TYPE : List Nat := [73, 76, 66, 77]
def PBM__FORM_TYPE : List Nat := [80, 66, 77, 32]
def ACBM_FORM_TYPE : List Nat := [65, 67, 66, 77]

/-- `IFFChunk::isValid`: the tag must be non-empty, must not start with a
space, and every byte, read as a signed `char`, must lie between `' '` (0x20)
and `'~'` (0x7E). -/
def tagIsValid (cid : List Nat) : Bool :=
  if cid.isEmpty then false
  else if sChar (cid.getD 0 0) = 32 then false
  else cid.all (fun b => !(sChar b < 32 || 126 < sChar b))

/-- `QByteArray::startsWith`. -/
def startsWithBytes (a p : List Nat) : Bool := a.take p.length = p

/-- `IFFChunk::chunkVersion`: a digit `'2'`-`'9'` in the fourth byte denotes a
versioned tag family. -/
def chunkVersion (cid : List Nat) : Nat :=
  if cid.length ≠ 4 then 0
  else if 50 ≤ cid.getD 3 0 ∧ cid.getD 3 0 ≤ 57 then cid.getD 3 0 - 48
  else 1

/-! ## The stream (`QIODevice` over an in-memory byte buffer) -/

/-- A random-access read-only byte stream: the bytes plus a cursor. -/
structure Device where
  data : List Nat
  pos : Nat

/-- `QIODevice::read(n)`: returns at most `n` bytes (fewer near the end) and
advances the cursor by the number of bytes actually read. -/
def Device.read (d : Device) (n : Nat) : List Nat × Device :=
  let bs := (d.data.drop d.pos).take n
  (bs, { d with pos := d.pos + bs.length })

/-- `QIODevice::peek(n)`: like `read` but without advancing. -/
def Device.peek (d : Device) (n : Nat) : List Nat :=
  (d.data.drop d.pos).take n

/-- `QIODevice::seek` with read-only `QBuffer` semantics: any position up to
the buffer size is reachable, seeking past the end fails. -/
def Device.seek (d : Device) (p : Nat) : Option Device :=
  if p ≤ d.data.length then some { d with pos := p } else none

/-- `QIODevice::atEnd`. -/
def Device.atEnd (d : Device) : Bool := d.data.length ≤ d.pos

/-! ## The chunk node -/

/-- The chunk decoders modelled here (all other tags dispatch to the generic
opaque chunk, exactly as unknown tags do in `IFFChunk::innerFromDevice`). -/
inductive ChunkKind where
  | form
  | bmhd
  | cmap
  | camg
  | body
  | unknown
deriving DecidableEq

/-- `IFFChunk` state: tag, declared payload size, alignment quantum, absolute
payload offset, recursion counter, cached payload, children, and (for FORM)
the form type. -/
structure Chunk where
  kind : ChunkKind
  chunkId : List Nat
  size : Nat
  align : Nat
  dataPos : Nat
  recursionCnt : Nat
  cache : List Nat
  formType : List Nat
  children : List Chunk

/-- `#define RECURSION_PROTECTION 10`. -/
def RECURSION_PROTECTION : Nat := 10

/-- `IFFChunk::alignBytes` (the kinds modelled here all use the stored
`_align`; the Maya `FOR4`/`TBHD`/`RGBA` overrides returning 4 are not part of
the chunk kinds exercised by this development). -/
def Chunk.alignBytes (c : Chunk) : Nat := c.align

/-- `IFFChunk::nextChunkPos`: payload start plus declared size, padded to the
next multiple of the alignment quantum. -/
def Chunk.nextChunkPos (c : Chunk) : Nat :=
  let pos := c.dataPos + c.size
  if pos % c.alignBytes ≠ 0 then pos + (c.alignBytes - pos % c.alignBytes) else pos

/-- `IFFChunk::isChunkType`: exact tag match, or a 3-byte-prefix match when
the probe tag declares a version greater than 1. -/
def Chunk.isChunkType (c : Chunk) (cid : List Nat) : Bool :=
  if c.chunkId = cid then true
  else if startsWithBytes c.chunkId (cid.take 3) && chunkVersion cid > 1 then true
  else false

/-- `IFFChunk::isValid` applied to a chunk's stored tag. -/
def Chunk.isValid (c : Chunk) : Bool := tagIsValid c.chunkId

/-- `IFFChunk::readInfo`: read the 4-byte tag, validate it, read the 4-byte
big-endian size, record the payload offset. -/
def Chunk.readInfo (c : Chunk) (d : Device) : Option (Chunk × Device) :=
  let r := d.read 4
  if r.1.length ≠ 4 then none
  else
    let c1 := { c with chunkId := r.1 }
    if ¬ c1.isValid then none
    else
      let r2 := r.2.read 4
      if r2.1.length ≠ 4 then none
      else
        some ({ c1 with
                  size := ui32 (r2.1.getD 3 0) (r2.1.getD 2 0) (r2.1.getD 1 0) (r2.1.getD 0 0),
                  dataPos := r2.2.pos }, r2.2)

/-- `IFFChunk::cacheData` (via `readRawData`): refuse payloads over 8 MiB,
seek to the payload start, read the declared size, succeed only when the full
payload was available.  A failed seek yields an empty cache, accepted only
for size 0 (the `_data.size() == _size` comparison). -/
def Chunk.cacheData (c : Chunk) (d : Device) : Option (Chunk × Device) :=
  if c.size > 8 * 1024 * 1024 then none
  else
    match d.seek c.dataPos with
    | none => if c.size = 0 then some ({ c with cache := [] }, d) else none
    | some d1 =>
      let r := d1.read c.size
      if r.1.length = c.size then some ({ c with cache := r.1 }, r.2) else none

/-- Tag dispatch of `IFFChunk::innerFromDevice`, restricted to the kinds
modelled here; every other tag builds the generic opaque chunk. -/
def dispatchKind (cid : List Nat) : ChunkKind :=
  if cid = BMHD_CHUNK then .bmhd
  else if cid = BODY_CHUNK then .body
  else if cid = CAMG_CHUNK then .camg
  else if cid = CMAP_CHUNK then .cmap
  else if cid = FORM_CHUNK then .form
  else .unknown

/-- A freshly constructed chunk (the `IFFChunk()` constructor: zeroed tag,
size 0, alignment 2, zero offsets and recursion counter). -/
def Chunk.fresh (k : ChunkKind) : Chunk :=
  { kind := k, chunkId := [0, 0, 0, 0], size := 0, align := 2, dataPos := 0,
    recursionCnt := 0, cache := [], formType := [], children := [] }

/-- The container test at the top of the parse loop: `isChunkType` against
`CAT `, the four-space placeholder, `FORM`, `LIST` and `PROP` (evaluated on
the freshly constructed chunk, whose tag is still zeroed). -/
def Chunk.isContainerTag (c : Chunk) : Bool :=
  c.isChunkType CAT__CHUNK || c.isChunkType FILL_CHUNK || c.isChunkType FORM_CHUNK ||
    c.isChunkType LIST_CHUNK || c.isChunkType PROP_CHUNK

/-! ## The recursive structure parser

`IFFChunk::readStructure`, the virtual `innerReadStructure` and the parse
loop of `IFFChunk::innerFromDevice` are mutually recursive; the `fuel`
argument is a structural bound (every call strictly decreases it), and
`fromDevice` supplies enough fuel for any input, since each loop iteration
consumes at least 8 bytes of stream. -/

mutual

/-- `IFFChunk::readStructure`: read the chunk info; once the recursion
counter passes `RECURSION_PROTECTION - 1`, force the default (no-op)
structure reader; finally seek to `nextChunkPos`. -/
def Chunk.readStructure : Nat → Chunk → Device → Option (Chunk × Device)
  | 0, _, _ => none
  | fuel + 1, c, d =>
    match c.readInfo d with
    | none => none
    | some (c1, d1) =>
      let inner :=
        if c1.recursionCnt > RECURSION_PROTECTION - 1 then some (c1, d1)
        else Chunk.innerRead fuel c1 d1
      match inner with
      | none => none
      | some (c2, d2) =>
        match d2.seek c2.nextChunkPos with
        | none => none
        | some d3 => some (c2, d3)

/-- The virtual `innerReadStructure`: BMHD/CMAP/CAMG cache their payload,
BODY and opaque chunks do nothing, FORM reads its 4-byte form type and — for
the ILBM/PBM/ACBM types — parses its children via `innerFromDevice`. -/
def Chunk.innerRead : Nat → Chunk → Device → Option (Chunk × Device)
  | 0, _, _ => none
  | fuel + 1, c, d =>
    match c.kind with
    | .bmhd | .cmap | .camg => c.cacheData d
    | .body | .unknown => some (c, d)
    | .form =>
      if c.size < 4 then none
      else
        let r := d.read 4
        let c1 := { c with formType := r.1 }
        if r.1 = ILBM_FORM_TYPE ∨ r.1 = PBM__FORM_TYPE ∨ r.1 = ACBM_FORM_TYPE then
          match Chunk.innerLoop fuel r.2 c1.alignBytes c1.recursionCnt c1.nextChunkPos [] with
          | none => none
          | some (ch, d2) => some ({ c1 with children := ch }, d2)
        else some (c1, r.2)

/-- The parse loop of `IFFChunk::innerFromDevice`: while not at the end and
before the parent's next-chunk position (0 meaning unknown), peek the tag,
construct the dispatched chunk, propagate the alignment, bump the recursion
counter, read the chunk, and after the first chunk pin the stop position. -/
def Chunk.innerLoop : Nat → Device → Nat → Nat → Nat → List Chunk → Option (List Chunk × Device)
  | 0, _, _, _, _, _ => none
  | fuel + 1, d, align, rcnt, next, acc =>
    if ¬ d.atEnd ∧ (next = 0 ∨ d.pos < next) then
      let cid := d.peek 4
      let c0 := Chunk.fresh (dispatchKind cid)
      let c1 := if c0.isContainerTag then c0 else { c0 with align := align }
      let c2 := { c1 with recursionCnt := rcnt + 1 }
      match Chunk.readStructure fuel c2 d with
      | none => none
      | some (c3, d1) =>
        let next1 := if next = 0 then c3.nextChunkPos else next
        Chunk.innerLoop fuel d1 align rcnt next1 (acc ++ [c3])
    else some (acc, d)

end

/-- `IFFChunk::innerFromDevice`: derive alignment, recursion counter and the
stop position from the parent (defaults 2/0/0), reject recursion counters
beyond `RECURSION_PROTECTION`, then run the parse loop. -/
def Chunk.innerFromDevice (fuel : Nat) (d : Device) (parent : Option Chunk) :
    Option (List Chunk × Device) :=
  let align := match parent with | none => 2 | some p => p.alignBytes
  let rcnt := match parent with | none => 0 | some p => p.recursionCnt
  let next := match parent with | none => 0 | some p => p.nextChunkPos
  if rcnt > RECURSION_PROTECTION then none
  else Chunk.innerLoop fuel d align rcnt next []

/-- `IFFChunk::fromDevice`: parse the root chunk list.  The fuel is a crude
upper bound: every loop iteration consumes at least 8 bytes and every
recursion level at least 4, so three fuel units per stream byte suffice. -/
def Chunk.fromDevice (d : Device) : Option (List Chunk × Device) :=
  Chunk.innerFromDevice (3 * d.data.length + 16) d none

/-! ## Typed chunk decoders (fixed big-endian offsets over the cached payload) -/

instance : Inhabited Chunk := ⟨Chunk.fresh .unknown⟩

/-- `BMHDChunk::isValid`: at least 20 payload bytes and the `BMHD` tag. -/
def BMHDChunk.isValid (c : Chunk) : Bool :=
  if c.size < 20 then false else c.chunkId = BMHD_CHUNK

def BMHDChunk.width (c : Chunk) : Nat :=
  if ¬ BMHDChunk.isValid c then 0 else ui16 (c.cache.getD 1 0) (c.cache.getD 0 0)

def BMHDChunk.height (c : Chunk) : Nat :=
  if ¬ BMHDChunk.isValid c then 0 else ui16 (c.cache.getD 3 0) (c.cache.getD 2 0)

def BMHDChunk.left (c : Chunk) : Nat :=
  if ¬ BMHDChunk.isValid c then 0 else ui16 (c.cache.getD 5 0) (c.cache.getD 4 0)

def BMHDChunk.top (c : Chunk) : Nat :=
  if ¬ BMHDChunk.isValid c then 0 else ui16 (c.cache.getD 7 0) (c.cache.getD 6 0)

def BMHDChunk.bitplanes (c : Chunk) : Nat :=
  if ¬ BMHDChunk.isValid c then 0 else u8 (c.cache.getD 8 0)

/-- `BMHDChunk::Masking::None`. -/
def BMHDChunk.maskingNone : Nat := 0

def BMHDChunk.masking (c : Chunk) : Nat :=
  if ¬ BMHDChunk.isValid c then BMHDChunk.maskingNone else u8 (c.cache.getD 9 0)

/-- Modelled from the spec: the `Compression` enum values live in
`chunks_p.h`, which is not among the sources; §3 gives the two modes
(uncompressed | RLE) and the BMHD convention is 0 = uncompressed, 1 = RLE.
The accessor performs the C++ `char` cast (signed). -/
def BMHDChunk.compressionUncompressed : Int := 0

def BMHDChunk.compressionRle : Int := 1

def BMHDChunk.compression (c : Chunk) : Int :=
  if ¬ BMHDChunk.isValid c then BMHDChunk.compressionUncompressed
  else sChar (c.cache.getD 10 0)

def BMHDChunk.transparency (c : Chunk) : Int :=
  if ¬ BMHDChunk.isValid c then 0 else i16 (c.cache.getD 13 0) (c.cache.getD 12 0)

def BMHDChunk.xAspectRatio (c : Chunk) : Nat :=
  if ¬ BMHDChunk.isValid c then 0 else u8 (c.cache.getD 14 0)

def BMHDChunk.yAspectRatio (c : Chunk) : Nat :=
  if ¬ BMHDChunk.isValid c then 0 else u8 (c.cache.getD 15 0)

def BMHDChunk.pageWidth (c : Chunk) : Nat :=
  if ¬ BMHDChunk.isValid c then 0 else ui16 (c.cache.getD 17 0) (c.cache.getD 16 0)

def BMHDChunk.pageHeight (c : Chunk) : Nat :=
  if ¬ BMHDChunk.isValid c then 0 else ui16 (c.cache.getD 19 0) (c.cache.getD 18 0)

/-- `BMHDChunk::rowLen`: the word-aligned planar row byte length. -/
def BMHDChunk.rowLen (c : Chunk) : Nat := ((BMHDChunk.width c + 15) / 16) * 2

/-- `CMAPChunk::isValid`. -/
def CMAPChunk.isValid (c : Chunk) : Bool := c.chunkId = CMAP_CHUNK

/-- `CMAPChunk::count`: one RGB triple per 3 payload bytes. -/
def CMAPChunk.count (c : Chunk) : Nat :=
  if ¬ CMAPChunk.isValid c then 0 else c.size / 3

/-- `CMAPChunk::innerPalette`: RGB triples read off the cached payload
(`qRgb` masks each channel to 8 bits). -/
def CMAPChunk.innerPalette (c : Chunk) : List (Nat × Nat × Nat) :=
  (List.range (CMAPChunk.count c)).map fun i =>
    (u8 (c.cache.getD (i * 3) 0), u8 (c.cache.getD (i * 3 + 1) 0), u8 (c.cache.getD (i * 3 + 2) 0))

/-- `CMAPChunk::palette`: the plain palette, doubled with half-bright entries
when requested. -/
def CMAPChunk.palette (c : Chunk) (halfbride : Bool) : List (Nat × Nat × Nat) :=
  let p := CMAPChunk.innerPalette c
  if ¬ halfbride then p
  else p ++ p.map fun v => (v.1 / 2, v.2.1 / 2, v.2.2 / 2)

/-- `CAMGChunk::isValid`: exactly 4 payload bytes and the `CAMG` tag. -/
def CAMGChunk.isValid (c : Chunk) : Bool :=
  if c.size ≠ 4 then false else c.chunkId = CAMG_CHUNK

/-- Modelled from the spec: the numeric `CAMGChunk::ModeId` bits live in
`chunks_p.h`, which is not among the sources; §3 names HalfBrite and Ham as
distinct bits of the 32-bit mask; the Amiga CAMG convention is
HalfBrite = 0x80 and Ham = 0x800. -/
def CAMGChunk.modeHalfBrite : Nat := 0x80

def CAMGChunk.modeHam : Nat := 0x800

/-- `CAMGChunk::modeId`: the 32-bit big-endian mode mask. -/
def CAMGChunk.modeId (c : Chunk) : Nat :=
  if ¬ CAMGChunk.isValid c then 0
  else ui32 (c.cache.getD 3 0) (c.cache.getD 2 0) (c.cache.getD 1 0) (c.cache.getD 0 0)

/-- `BODYChunk::isValid`. -/
def BODYChunk.isValid (c : Chunk) : Bool := c.chunkId = BODY_CHUNK

/-- `BODYChunk::safeModeId`: prefer the CAMG mode; otherwise guess HalfBrite
from a palette of exactly `2^(bitplanes-1)` entries, or HAM for 6 planes. -/
def BODYChunk.safeModeId (header camg cmap : Option Chunk) : Nat :=
  match camg with
  | some cg => CAMGChunk.modeId cg
  | none =>
    match header with
    | none => 0
    | some h =>
      if (match cmap with
          | some cm => decide (CMAPChunk.count cm = 1 <<< (BMHDChunk.bitplanes h - 1))
          | none => false) then CAMGChunk.modeHalfBrite
      else if BMHDChunk.bitplanes h = 6 then CAMGChunk.modeHam
      else 0

/-- `BODYChunk::strideSize`: one interleaved row (`rowLen · bitplanes`), or
for PBM the byte width padded to even. -/
def BODYChunk.strideSize (header : Chunk) (isPbm : Bool) : Nat :=
  if ¬ isPbm then BMHDChunk.rowLen header * BMHDChunk.bitplanes header
  else
    let rs := BMHDChunk.width header * BMHDChunk.bitplanes header / 8
    if rs % 2 = 1 then rs + 1 else rs

/-! ## Plane deinterleaving (`BODYChunk::deinterleave`)

The imperative row loops write each output cell independently; they are
rendered as per-pixel folds over the plane index `k`, mirroring the
`ba[..] |= 1 << ..` updates each cell receives, and the row as the pixels in
the loop order (`i` over `rowLen`, `j` over the 8 bits, MSB first). -/

/-- Whether plane `k`'s byte for column byte `i` has the bit for pixel `j`
set (`planes.at(k * rowLen + i) & (1 << (7 - j))`). -/
def planeBit (planes : List Nat) (rowLen i k j : Nat) : Bool :=
  planes.getD (k * rowLen + i) 0 &&& (1 <<< (7 - j)) ≠ 0

/-- One pixel of the classic planar-to-chunky branch: OR together `1 << k`
for every plane `k` whose bit is set. -/
def classicPixel (planes : List Nat) (rowLen bitplanes i j : Nat) : Nat :=
  (List.range bitplanes).foldl
    (fun c k => if planeBit planes rowLen i k j then c ||| (1 <<< k) else c) 0

/-- The classic branch: `rowLen * 8` palette-index bytes. -/
def classicRow (planes : List Nat) (rowLen bitplanes : Nat) : List Nat :=
  (List.range rowLen).flatMap fun i =>
    (List.range 8).map fun j => classicPixel planes rowLen bitplanes i j

/-- The HAM inner plane loop: planes below `bitplanes - 2` accumulate the
index (`idx |= 1 << k`), the top two accumulate the control bits
(`ctl |= 1 << (bitplanes - k - 1)`). -/
def hamIdxCtl (planes : List Nat) (rowLen bitplanes i j : Nat) : Nat × Nat :=
  (List.range bitplanes).foldl
    (fun p k =>
      if planeBit planes rowLen i k j then
        if k < bitplanes - 2 then (p.1 ||| (1 <<< k), p.2)
        else (p.1, p.2 ||| (1 <<< (bitplanes - k - 1)))
      else p)
    (0, 0)

/-- The HAM `switch (ctl)`: 1 replaces red, 2 replaces blue, 3 replaces
green (scaled by `idx * 255 / maxIdx`, stored through a `quint8`); otherwise
load the palette entry when the index is in range, else keep the held color
(only a warning is logged). -/
def hamStep (pal : List (Nat × Nat × Nat)) (maxIdx : Nat) (prev : Nat × Nat × Nat)
    (ic : Nat × Nat) : Nat × Nat × Nat :=
  if ic.2 = 1 then (u8 (ic.1 * 255 / maxIdx), prev.2.1, prev.2.2)
  else if ic.2 = 2 then (prev.1, prev.2.1, u8 (ic.1 * 255 / maxIdx))
  else if ic.2 = 3 then (prev.1, u8 (ic.1 * 255 / maxIdx), prev.2.2)
  else if ic.1 < pal.length then pal.getD ic.1 (0, 0, 0)
  else prev

/-- The HAM pixel loop: three output bytes per pixel, threading the held
color from pixel to pixel. -/
def hamPixels (pal : List (Nat × Nat × Nat)) (maxIdx : Nat) :
    Nat × Nat × Nat → List (Nat × Nat) → List Nat
  | _, [] => []
  | prev, ic :: rest =>
    let nw := hamStep pal maxIdx prev ic
    nw.1 :: nw.2.1 :: nw.2.2 :: hamPixels pal maxIdx nw rest

/-- The pixel positions of a row in loop order. -/
def rowPositions (rowLen : Nat) : List (Nat × Nat) :=
  (List.range rowLen).flatMap fun i => (List.range 8).map fun j => (i, j)

/-- The HAM branch: `maxIdx = 2^(bitplanes-2) - 1`, held color initialized
to zero (`quint8 prev[3] = {}`), `rowLen * 8 * 3` RGB bytes. -/
def hamRow (planes : List Nat) (rowLen bitplanes : Nat)
    (pal : List (Nat × Nat × Nat)) : List Nat :=
  hamPixels pal ((1 <<< (bitplanes - 2)) - 1) (0, 0, 0)
    ((rowPositions rowLen).map fun p => hamIdxCtl planes rowLen bitplanes p.1 p.2)

/-- The HalfBrite inner plane loop: planes below `bitplanes - 1` accumulate
the index, the last plane sets `ctl`. -/
def hbIdxCtl (planes : List Nat) (rowLen bitplanes i j : Nat) : Nat × Nat :=
  (List.range bitplanes).foldl
    (fun p k =>
      if planeBit planes rowLen i k j then
        if k < bitplanes - 1 then (p.1 ||| (1 <<< k), p.2)
        else (p.1, 1)
      else p)
    (0, 0)

/-- The HalfBrite branch: in-range indexes map to `idx` or `idx + palSize`
(stored through a `char`), out-of-range indexes leave the zero-initialized
cell (only a warning is logged). -/
def halfBriteRow (planes : List Nat) (rowLen bitplanes palSize : Nat) : List Nat :=
  (rowPositions rowLen).map fun p =>
    let ic := hbIdxCtl planes rowLen bitplanes p.1 p.2
    if ic.1 < palSize then (if ic.2 ≠ 0 then u8 (ic.1 + palSize) else ic.1) else 0

/-- One output byte of the 24/32-plane branch: bits 0..7 from planes
`k8`..`k8+7` at the pixel's mask. -/
def deepByte (planes : List Nat) (rowLen i j k8 : Nat) : Nat :=
  (List.range 8).foldl
    (fun c b => if planeBit planes rowLen i (b + k8) j then c ||| (1 <<< b) else c) 0

/-- The 24/32-plane branch: `bitplanes / 8` channel bytes per pixel, in the
plane-group order `R0..Rn G0..Gn B0..Bn`. -/
def deepRow (planes : List Nat) (rowLen bitplanes : Nat) : List Nat :=
  (List.range rowLen).flatMap fun i =>
    (List.range 8).flatMap fun j =>
      (List.range (bitplanes / 8)).map fun k => deepByte planes rowLen i j (k * 8)

/-- `BODYChunk::deinterleave`: size guard, then dispatch on bitplane count,
PBM passthrough, HAM, HalfBrite, classic, and the deep 24/32 branch; any
other depth yields the empty array. -/
def BODYChunk.deinterleave (planes : List Nat) (header : Chunk)
    (camg cmap : Option Chunk) (isPbm : Bool) : List Nat :=
  if planes.length ≠ BODYChunk.strideSize header isPbm then []
  else
    let rowLen := BMHDChunk.rowLen header
    let bitplanes := BMHDChunk.bitplanes header
    let modeId := BODYChunk.safeModeId (some header) camg cmap
    if 1 ≤ bitplanes ∧ bitplanes ≤ 8 then
      if isPbm ∧ bitplanes = 8 then planes
      else if modeId &&& CAMGChunk.modeHam ≠ 0 ∧ cmap.isSome ∧
          (5 ≤ bitplanes ∧ bitplanes ≤ 8) then
        match cmap with
        | some cm => hamRow planes rowLen bitplanes (CMAPChunk.palette cm false)
        | none => []
      else if modeId &&& CAMGChunk.modeHalfBrite ≠ 0 ∧ cmap.isSome then
        match cmap with
        | some cm => halfBriteRow planes rowLen bitplanes (CMAPChunk.count cm)
        | none => []
      else classicRow planes rowLen bitplanes
    else if bitplanes = 24 ∨ bitplanes = 32 then
      if isPbm then [] else deepRow planes rowLen bitplanes
    else []

/-! ## Run-length codecs -/

/-- `rleMayaDecompress` (chunks.cpp): the Maya RLE variant.  The input is the
byte stream at the device position; the result is the produced output and the
unconsumed input, or `none` for the `-1` error (a literal run whose bytes are
missing).  When fewer than 128 output bytes remain, the next control byte is
peeked first and the run is not consumed if it would overflow the remaining
output space; a missing control or replication byte ends the run loop with
the output produced so far. -/
def rleMayaDecompress (input : List Nat) (olen : Nat) : Option (List Nat × List Nat) :=
  if _holen : olen = 0 then some ([], input)
  else
    match input with
    | [] => some ([], [])
    | n :: rest =>
      let rr := (n &&& 127) + 1
      if olen < 128 ∧ olen < rr then some ([], n :: rest)
      else if n &&& 128 ≠ 0 then
        match rest with
        | [] => some ([], [])
        | b :: rest2 =>
          match rleMayaDecompress rest2 (olen - rr) with
          | none => none
          | some (out, rem) => some (List.replicate rr b ++ out, rem)
      else
        if rest.length < rr then none
        else
          match rleMayaDecompress (rest.drop rr) (olen - rr) with
          | none => none
          | some (out, rem) => some (rest.take rr ++ out, rem)
termination_by olen
decreasing_by
  all_goals omega

/-- Modelled from the spec: `packbitsDecompress` (Variant A of §4.1) lives in
`packbits_p.h`, which is not among the sources.  Control byte `n` read as a
signed char: `n ≥ 0` copies `n + 1` literal bytes, `n < 0` — including
`-128`, which for this format is NOT a no-op — repeats the next byte `1 - n`
times; output stops exactly at the requested length; on insufficient input a
short result is returned (callers treat anything but the exact requested
length as failure). -/
def packbitsDecompress (input : List Nat) (olen : Nat) : List Nat × List Nat :=
  if _holen : olen = 0 then ([], input)
  else
    match input with
    | [] => ([], [])
    | n :: rest =>
      if n % 256 < 128 then
        let cnt := min (n % 256 + 1) olen
        if rest.length < cnt then (rest, [])
        else
          let out := packbitsDecompress (rest.drop cnt) (olen - cnt)
          (rest.take cnt ++ out.1, out.2)
      else
        let cnt := min (257 - n % 256) olen
        match rest with
        | [] => ([], [])
        | b :: rest2 =>
          let out := packbitsDecompress rest2 (olen - cnt)
          (List.replicate cnt b ++ out.1, out.2)
termination_by olen
decreasing_by
  all_goals omega

/-! ## Scanline streaming (`BODYChunk::strideRead` and the handler row loop) -/

/-- The decompression step of the `strideRead` loop body: RLE goes through
`packbitsDecompress`, uncompressed data is read directly, any other
compression mode leaves `rr = -1` (here: an empty, hence wrong-sized,
result). -/
def strideStep (hdr : Chunk) (d : Device) (readSize : Nat) : List Nat × Device :=
  if BMHDChunk.compression hdr = BMHDChunk.compressionRle then
    let r := packbitsDecompress (d.data.drop d.pos) readSize
    (r.1, { d with pos := d.data.length - r.2.length })
  else if BMHDChunk.compression hdr = BMHDChunk.compressionUncompressed then
    d.read readSize
  else ([], d)

/-- `BODYChunk::strideRead`: refill the persistent read buffer (the C++
`for` loop body appends exactly `readSize` bytes when it succeeds, so it
runs at most once per call and is rendered as a conditional), fail to an
empty row unless the decompressor produced exactly `readSize` bytes, then
split off one stride and deinterleave it.  Returns the packed row, the
device, and the remaining read buffer. -/
def BODYChunk.strideRead (body : Chunk) (d : Device) (readBuffer : List Nat)
    (header camg cmap : Option Chunk) (isPbm : Bool) : List Nat × Device × List Nat :=
  match header with
  | none => ([], d, readBuffer)
  | some hdr =>
    if ¬ BODYChunk.isValid body then ([], d, readBuffer)
    else
      let readSize := BODYChunk.strideSize hdr isPbm
      if ¬ d.atEnd ∧ readBuffer.length < readSize then
        let step := strideStep hdr d readSize
        if step.1.length ≠ readSize then ([], step.2, readBuffer)
        else
          let buf := readBuffer ++ step.1
          (BODYChunk.deinterleave (buf.take readSize) hdr camg cmap isPbm,
            step.2, buf.drop readSize)
      else
        (BODYChunk.deinterleave (readBuffer.take readSize) hdr camg cmap isPbm,
          d, readBuffer.drop readSize)

/-- The scanline loop of `IFFHandler::readStandardImage` (unnamed/part_006):
one `strideRead` per image row; an empty row aborts the whole decode — the
handler's `read()` then returns false and no partial image is handed to the
caller — otherwise the row is appended and the loop continues. -/
def readRows (body : Chunk) (header camg cmap : Option Chunk) (isPbm : Bool) :
    Nat → Device → List Nat → Option (List (List Nat))
  | 0, _, _ => some []
  | h + 1, d, rb =>
    let r := BODYChunk.strideRead body d rb header camg cmap isPbm
    if r.1 = [] then none
    else
      match readRows body header camg cmap isPbm h r.2.1 r.2.2 with
      | none => none
      | some rest => some (r.1 :: rest)

/-! ## Derived notions used by the verification -/

/-- The weighted-bit accumulation pattern of the plane loops: OR together
`1 <<< k` for every `k < m` with `b k` set. -/
def orBits (b : Nat → Bool) (m : Nat) : Nat :=
  (List.range m).foldl (fun c k => if b k then c ||| (1 <<< k) else c) 0

/-- The RGB triple of pixel `cnt` in a packed 3-bytes-per-pixel row. -/
def pixelAt (ba : List Nat) (cnt : Nat) : Nat × Nat × Nat :=
  (ba.getD (3 * cnt) 0, ba.getD (3 * cnt + 1) 0, ba.getD (3 * cnt + 2) 0)

/-- The state of the HAM held color after `n` pixels. -/
def hamStateAfter (pal : List (Nat × Nat × Nat)) (maxIdx : Nat) (prev : Nat × Nat × Nat)
    (ics : List (Nat × Nat)) (n : Nat) : Nat × Nat × Nat :=
  (ics.take n).foldl (hamStep pal maxIdx) prev

/-- Depth of a chunk tree along first children (fuel-bounded, `Chunk` being a
nested inductive). -/
def countChain : Nat → Chunk → Nat
  | 0, _ => 0
  | f + 1, c =>
    match c.children with
    | [] => 1
    | ch :: _ => 1 + countChain f ch

/-- Big-endian 4-byte encoding. -/
def be32 (n : Nat) : List Nat := [n / 16777216 % 256, n / 65536 % 256, n / 256 % 256, n % 256]

/-- A FORM/ILBM container nested `n + 1` levels deep (each level holds the
4-byte form type plus the next level as its only child). -/
def nestedForm : Nat → List Nat
  | 0 => FORM_CHUNK ++ be32 4 ++ ILBM_FORM_TYPE
  | n + 1 => FORM_CHUNK ++ be32 (4 + 12 * (n + 1)) ++ ILBM_FORM_TYPE ++ nestedForm n

/-! Concrete fixtures. -/

/-- An 8-byte stream holding a single zero-sized chunk tagged `TEST`. -/
def testDev : Device := { data := [84, 69, 83, 84, 0, 0, 0, 0], pos := 0 }

/-- The depth-15 nested container stream. -/
def nestedDev : Device := { data := nestedForm 14, pos := 0 }

/-- BMHD fixture: width 8, height 1, 1 bitplane, uncompressed. -/
def bmhd1 : Chunk :=
  { Chunk.fresh .bmhd with
    chunkId := BMHD_CHUNK
    size := 20
    cache := [0, 8, 0, 1, 0, 0, 0, 0, 1, 0, 0, 0, 0, 0, 0, 0, 0, 8, 0, 1] }

/-- BMHD fixture: width 16, height 1, 5 bitplanes, uncompressed. -/
def bmhd5 : Chunk :=
  { Chunk.fresh .bmhd with
    chunkId := BMHD_CHUNK
    size := 20
    cache := [0, 16, 0, 1, 0, 0, 0, 0, 5, 0, 0, 0, 0, 0, 0, 0, 0, 16, 0, 1] }

/-- BMHD fixture: like `bmhd5` but declaring RLE body compression. -/
def bmhd5r : Chunk :=
  { Chunk.fresh .bmhd with
    chunkId := BMHD_CHUNK
    size := 20
    cache := [0, 16, 0, 1, 0, 0, 0, 0, 5, 0, 1, 0, 0, 0, 0, 0, 0, 16, 0, 1] }

/-- CAMG fixture declaring HAM mode (bit 0x800). -/
def camgHam : Chunk :=
  { Chunk.fresh .camg with chunkId := CAMG_CHUNK, size := 4, cache := [0, 0, 8, 0] }

/-- CAMG fixture declaring HalfBrite mode (bit 0x80). -/
def camgHB : Chunk :=
  { Chunk.fresh .camg with chunkId := CAMG_CHUNK, size := 4, cache := [0, 0, 0, 128] }

/-- CMAP fixture with the single entry (10, 20, 30). -/
def cmap1 : Chunk :=
  { Chunk.fresh .cmap with chunkId := CMAP_CHUNK, size := 3, cache := [10, 20, 30] }

/-- A BODY chunk shell. -/
def body0 : Chunk := { Chunk.fresh .body with chunkId := BODY_CHUNK }

/-- A BMHD chunk with a truncated 10-byte payload. -/
def bmhdShort : Chunk :=
  { Chunk.fresh .bmhd with
    chunkId := BMHD_CHUNK
    size := 10
    cache := [0, 8, 0, 1, 0, 0, 0, 0, 1, 0] }

/-- HAM planes (5 planes × rowLen 2): pixel 0 has plane 0 and plane 4 set
(index 1, control 1 = replace red). -/
def planesHold : List Nat := [128, 0, 0, 0, 0, 0, 0, 0, 128, 0]

/-- HAM planes (5 planes × rowLen 2): pixel 0 all clear (load palette entry
0), pixel 1 has plane 0 set (index 1, control 0 — beyond the 1-entry
palette). -/
def planesOOR : List Nat := [64, 0, 0, 0, 0, 0, 0, 0, 0, 0]

/-! ## Bit-accumulation lemmas -/

theorem lor_two_pow_eq_add {a n : Nat} (h : a < 2 ^ n) : a ||| 2 ^ n = a + 2 ^ n := by
  apply Nat.eq_of_testBit_eq
  intro i
  rw [Nat.add_comm a (2 ^ n)]
  rcases Nat.lt_trichotomy i n with hi | hi | hi
  · rw [Nat.testBit_or, Nat.testBit_two_pow_add_gt hi,
      Nat.testBit_two_pow_of_ne (by omega), Bool.or_false]
  · subst hi
    rw [Nat.testBit_or, Nat.testBit_two_pow_add_eq, Nat.testBit_lt_two_pow h,
      Nat.testBit_two_pow_self]
    rfl
  · have hai : a < 2 ^ i := lt_trans h (Nat.pow_lt_pow_right (by omega) hi)
    have h1 : 2 ^ n + a < 2 ^ i := by
      have h2 : 2 ^ (n + 1) ≤ 2 ^ i := Nat.pow_le_pow_right (by omega) (by omega)
      have h3 : 2 ^ (n + 1) = 2 ^ n + 2 ^ n := by ring
      omega
    rw [Nat.testBit_or, Nat.testBit_lt_two_pow h1, Nat.testBit_lt_two_pow hai,
      Nat.testBit_two_pow_of_ne (by omega)]
    rfl

theorem orBits_succ (b : Nat → Bool) (m : Nat) :
    orBits b (m + 1) = if b m then orBits b m ||| (1 <<< m) else orBits b m := by
  simp [orBits, List.range_succ]

theorem orBits_lt (b : Nat → Bool) (m : Nat) : orBits b m < 2 ^ m := by
  induction m with
  | zero => simp [orBits]
  | succ m ih =>
    rw [orBits_succ]
    have hm : 2 ^ m < 2 ^ (m + 1) := Nat.pow_lt_pow_right (by omega) (by omega)
    split
    · exact Nat.or_lt_two_pow (by omega) (by simpa [Nat.shiftLeft_eq] using hm)
    · omega

theorem orBits_eq_sum (b : Nat → Bool) (m : Nat) :
    orBits b m = ((List.range m).map (fun k => if b k then 2 ^ k else 0)).sum := by
  induction m with
  | zero => rfl
  | succ m ih =>
    rw [orBits_succ, List.range_succ, List.map_append, List.sum_append]
    simp only [List.map_cons, List.map_nil, List.sum_cons, List.sum_nil]
    split
    · rw [Nat.shiftLeft_eq, one_mul, lor_two_pow_eq_add (orBits_lt b m), ih]
      omega
    · omega

theorem classicPixel_eq_orBits (planes : List Nat) (rowLen bp i j : Nat) :
    classicPixel planes rowLen bp i j = orBits (fun k => planeBit planes rowLen i k j) bp := rfl

theorem planeBit_eq_testBit (planes : List Nat) (rowLen i k j : Nat) :
    planeBit planes rowLen i k j = (planes.getD (k * rowLen + i) 0).testBit (7 - j) := by
  have h2 : (1 : Nat) <<< (7 - j) = 2 ^ (7 - j) := by simp [Nat.shiftLeft_eq]
  simp only [planeBit, h2, Nat.and_two_pow]
  cases h : (planes.getD (k * rowLen + i) 0).testBit (7 - j) <;>
    simp [h, (Nat.two_pow_pos (7 - j)).ne']

/-! ## Row indexing lemmas -/

theorem rowPositions_succ (n : Nat) :
    rowPositions (n + 1) = rowPositions n ++ (List.range 8).map (fun j => (n, j)) := by
  simp [rowPositions, List.range_succ]

theorem rowPositions_length (n : Nat) : (rowPositions n).length = n * 8 := by
  induction n with
  | zero => rfl
  | succ n ih =>
    rw [rowPositions_succ]
    simp [ih]
    omega

theorem rowPositions_getElem {rowLen i j : Nat} (hi : i < rowLen) (hj : j < 8) :
    (rowPositions rowLen)[i * 8 + j]? = some (i, j) := by
  induction rowLen with
  | zero => omega
  | succ n ih =>
    rw [rowPositions_succ]
    rcases Nat.lt_or_ge i n with h | h
    · rw [List.getElem?_append, if_pos (by rw [rowPositions_length]; omega)]
      exact ih h
    · have hin : i = n := by omega
      subst hin
      rw [List.getElem?_append, if_neg (by rw [rowPositions_length]; omega)]
      rw [rowPositions_length]
      have e : i * 8 + j - i * 8 = j := by omega
      rw [e, List.getElem?_map, List.getElem?_range hj]
      rfl

theorem getD_map_rowPositions {α : Type} (f : Nat × Nat → α) (d0 : α) {rowLen i j : Nat}
    (hi : i < rowLen) (hj : j < 8) :
    ((rowPositions rowLen).map f).getD (i * 8 + j) d0 = f (i, j) := by
  rw [List.getD_eq_getElem?_getD, List.getElem?_map, rowPositions_getElem hi hj]
  rfl

theorem classicRow_eq_map (planes : List Nat) (rowLen bp : Nat) :
    classicRow planes rowLen bp =
      (rowPositions rowLen).map (fun p => classicPixel planes rowLen bp p.1 p.2) := by
  simp only [classicRow, rowPositions, List.map_flatMap, List.map_map]
  rfl

/-! ## HAM state lemmas -/

theorem hamPixels_length (pal : List (Nat × Nat × Nat)) (maxIdx : Nat)
    (prev : Nat × Nat × Nat) (ics : List (Nat × Nat)) :
    (hamPixels pal maxIdx prev ics).length = 3 * ics.length := by
  induction ics generalizing prev with
  | nil => rfl
  | cons ic rest ih => simp [hamPixels, ih]; omega

theorem getD_cons3 (a b c : Nat) (t : List Nat) (n r : Nat) :
    (a :: b :: c :: t).getD (3 * (n + 1) + r) 0 = t.getD (3 * n + r) 0 := by
  have e : 3 * (n + 1) + r = (3 * n + r) + 1 + 1 + 1 := by ring
  rw [e, List.getD_cons_succ, List.getD_cons_succ, List.getD_cons_succ]

theorem hamPixels_pixelAt (pal : List (Nat × Nat × Nat)) (maxIdx : Nat) :
    ∀ (ics : List (Nat × Nat)) (prev : Nat × Nat × Nat) (n : Nat), n < ics.length →
      pixelAt (hamPixels pal maxIdx prev ics) n = hamStateAfter pal maxIdx prev ics (n + 1) := by
  intro ics
  induction ics with
  | nil => intro prev n h; simp at h
  | cons ic rest ih =>
    intro prev n h
    cases n with
    | zero =>
      simp [hamPixels, pixelAt, hamStateAfter, List.take_succ_cons, List.take_zero]
    | succ n =>
      have h' : n < rest.length := by simpa using h
      have e1 : pixelAt (hamPixels pal maxIdx prev (ic :: rest)) (n + 1) =
          pixelAt (hamPixels pal maxIdx (hamStep pal maxIdx prev ic) rest) n := by
        show pixelAt (_ :: _ :: _ :: hamPixels pal maxIdx (hamStep pal maxIdx prev ic) rest)
            (n + 1) = _
        unfold pixelAt
        have e : 3 * (n + 1) = 3 * n + 3 := by ring
        rw [e]
        rfl
      rw [e1, ih _ n h']
      simp [hamStateAfter, List.take_succ_cons]

/-! ## Index/control decomposition of the HAM and HalfBrite plane loops -/

theorem idxFold_low (b : Nat → Bool) (t : Nat) (g : Nat × Nat → Nat → Nat × Nat) :
    ∀ (m : Nat), m ≤ t → ∀ (x y : Nat),
      (List.range m).foldl
        (fun p k => if b k then (if k < t then (p.1 ||| (1 <<< k), p.2) else g p k) else p)
        (x, y) =
      ((List.range m).foldl (fun c k => if b k then c ||| (1 <<< k) else c) x, y) := by
  intro m
  induction m with
  | zero => intro _ x y; rfl
  | succ m ih =>
    intro hm x y
    rw [List.range_succ, List.foldl_append, List.foldl_append, ih (by omega)]
    simp only [List.foldl_cons, List.foldl_nil]
    split
    · rw [if_pos (by omega)]
    · rfl

theorem hamIdxCtl_eq (planes : List Nat) (rowLen i j : Nat) {bp : Nat} (h2 : 2 ≤ bp) :
    hamIdxCtl planes rowLen bp i j =
      (orBits (fun k => planeBit planes rowLen i k j) (bp - 2),
        (if planeBit planes rowLen i (bp - 2) j then 2 else 0) +
          (if planeBit planes rowLen i (bp - 1) j then 1 else 0)) := by
  obtain ⟨m, rfl⟩ : ∃ m, bp = m + 2 := ⟨bp - 2, by omega⟩
  unfold hamIdxCtl
  have e : m + 2 = (m + 1) + 1 := rfl
  rw [e, List.range_succ, List.range_succ, List.foldl_append, List.foldl_append]
  have hlow := idxFold_low (fun k => planeBit planes rowLen i k j) (m + 1 + 1 - 2)
    (fun p k => (p.1, p.2 ||| (1 <<< (m + 1 + 1 - k - 1)))) m (by omega) 0 0
  rw [hlow]
  have em : m + 1 + 1 - 2 = m := by omega
  have e1 : m + 1 + 1 - m - 1 = 1 := by omega
  have e2 : m + 1 + 1 - (m + 1) - 1 = 0 := by omega
  have e3 : m + 1 + 1 - 1 = m + 1 := by omega
  simp only [List.foldl_cons, List.foldl_nil, em, e1, e2, e3]
  cases hb1 : planeBit planes rowLen i m j <;>
    cases hb2 : planeBit planes rowLen i (m + 1) j <;>
      simp [hb1, hb2, em, orBits]

theorem hbIdxCtl_eq (planes : List Nat) (rowLen i j : Nat) {bp : Nat} (h1 : 1 ≤ bp) :
    hbIdxCtl planes rowLen bp i j =
      (orBits (fun k => planeBit planes rowLen i k j) (bp - 1),
        if planeBit planes rowLen i (bp - 1) j then 1 else 0) := by
  obtain ⟨m, rfl⟩ : ∃ m, bp = m + 1 := ⟨bp - 1, by omega⟩
  unfold hbIdxCtl
  rw [List.range_succ, List.foldl_append]
  have hlow := idxFold_low (fun k => planeBit planes rowLen i k j) (m + 1 - 1)
    (fun p _ => (p.1, 1)) m (by omega) 0 0
  rw [hlow]
  have em : m + 1 - 1 = m := by omega
  simp only [List.foldl_cons, List.foldl_nil, em]
  cases hb : planeBit planes rowLen i m j <;> simp [hb, orBits]

/-! ## Deinterleave dispatch lemmas -/

theorem deinterleave_classic (planes : List Nat) (header : Chunk) (camg cmap : Option Chunk)
    (hlen : planes.length = BODYChunk.strideSize header false)
    (hbp1 : 1 ≤ BMHDChunk.bitplanes header) (hbp8 : BMHDChunk.bitplanes header ≤ 8)
    (hmode : BODYChunk.safeModeId (some header) camg cmap = 0) :
    BODYChunk.deinterleave planes header camg cmap false =
      classicRow planes (BMHDChunk.rowLen header) (BMHDChunk.bitplanes header) := by
  simp [BODYChunk.deinterleave, hlen, hmode, hbp1, hbp8]

theorem deinterleave_ham (planes : List Nat) (header : Chunk) (camg : Option Chunk) (cm : Chunk)
    (hlen : planes.length = BODYChunk.strideSize header false)
    (hbp5 : 5 ≤ BMHDChunk.bitplanes header) (hbp8 : BMHDChunk.bitplanes header ≤ 8)
    (hham : BODYChunk.safeModeId (some header) camg (some cm) &&& CAMGChunk.modeHam ≠ 0) :
    BODYChunk.deinterleave planes header camg (some cm) false =
      hamRow planes (BMHDChunk.rowLen header) (BMHDChunk.bitplanes header)
        (CMAPChunk.palette cm false) := by
  have hbp1 : 1 ≤ BMHDChunk.bitplanes header := by omega
  simp [BODYChunk.deinterleave, hlen, hham, hbp1, hbp5, hbp8]

theorem deinterleave_halfbrite (planes : List Nat) (header : Chunk) (camg : Option Chunk)
    (cm : Chunk)
    (hlen : planes.length = BODYChunk.strideSize header false)
    (hbp1 : 1 ≤ BMHDChunk.bitplanes header) (hbp8 : BMHDChunk.bitplanes header ≤ 8)
    (hham : BODYChunk.safeModeId (some header) camg (some cm) &&& CAMGChunk.modeHam = 0)
    (hhb : BODYChunk.safeModeId (some header) camg (some cm) &&& CAMGChunk.modeHalfBrite ≠ 0) :
    BODYChunk.deinterleave planes header camg (some cm) false =
      halfBriteRow planes (BMHDChunk.rowLen header) (BMHDChunk.bitplanes header)
        (CMAPChunk.count cm) := by
  simp [BODYChunk.deinterleave, hlen, hham, hhb, hbp1, hbp8]

/-! ## Claim C9: the strict tag-validity rule -/

theorem sChar_range_iff {b : Nat} (hb : b < 256) :
    (32 ≤ sChar b ∧ sChar b ≤ 126) ↔ (32 ≤ b ∧ b ≤ 126) := by
  unfold sChar
  rw [Nat.mod_eq_of_lt hb]
  split <;> omega

theorem sChar_eq_32_iff {b : Nat} (hb : b < 256) : sChar b = 32 ↔ b = 32 := by
  unfold sChar
  rw [Nat.mod_eq_of_lt hb]
  split <;> omega

/-- C9: `IFFChunk::isValid` implements the strict IFF tag rule: a 4-byte tag
is valid if and only if all four bytes are in the printable range 0x20
through 0x7E and the first byte is not a space; in particular `"BMHD"` and
`"FORM"` are valid while `" BOD"` (leading space) is invalid. -/
theorem tag_validity_strict_rule :
    (∀ b0 b1 b2 b3 : Nat, b0 < 256 → b1 < 256 → b2 < 256 → b3 < 256 →
      (tagIsValid [b0, b1, b2, b3] = true ↔
        (b0 ≠ 32 ∧ (32 ≤ b0 ∧ b0 ≤ 126) ∧ (32 ≤ b1 ∧ b1 ≤ 126) ∧
          (32 ≤ b2 ∧ b2 ≤ 126) ∧ (32 ≤ b3 ∧ b3 ≤ 126)))) ∧
    tagIsValid BMHD_CHUNK = true ∧ tagIsValid FORM_CHUNK = true ∧
    tagIsValid [32, 66, 79, 68] = false := by
  refine ⟨?_, by decide, by decide, by decide⟩
  intro b0 b1 b2 b3 h0 h1 h2 h3
  have key : ∀ b : Nat, b < 256 →
      ((!(sChar b < 32 || 126 < sChar b)) = true ↔ (32 ≤ b ∧ b ≤ 126)) := by
    intro b hb
    rw [← sChar_range_iff hb]
    simp
    try omega
  simp only [tagIsValid, List.isEmpty_cons, List.getD_cons_zero, List.all_cons, List.all_nil,
    Bool.and_true]
  rw [if_neg (show ¬(false = true) by simp)]
  by_cases hz : sChar b0 = 32
  · rw [if_pos hz]
    have hb0 : b0 = 32 := (sChar_eq_32_iff h0).1 hz
    simp [hb0]
  · rw [if_neg hz]
    have hb0 : b0 ≠ 32 := fun he => hz ((sChar_eq_32_iff h0).2 he)
    simp only [Bool.and_eq_true, key b0 h0, key b1 h1, key b2 h2, key b3 h3]
    exact ⟨fun h => ⟨hb0, h⟩, fun h => h.2⟩

/-- C9 witness: the general rule applied to the concrete tag `"BMHD"`. -/
theorem tag_validity_strict_rule_witness :
    tagIsValid [66, 77, 72, 68] = true ↔
      ((66 : Nat) ≠ 32 ∧ (32 ≤ 66 ∧ (66 : Nat) ≤ 126) ∧ (32 ≤ 77 ∧ (77 : Nat) ≤ 126) ∧
        (32 ≤ 72 ∧ (72 : Nat) ≤ 126) ∧ (32 ≤ 68 ∧ (68 : Nat) ≤ 126)) :=
  tag_validity_strict_rule.1 66 77 72 68 (by decide) (by decide) (by decide) (by decide)

/-! ## Claim C10: short BMHD payloads -/

/-- C10: a BMHD chunk whose cached payload is shorter than 20 bytes (the
cache matching the declared size, as `cacheData` guarantees for parsed
chunks) is invalid, and every typed accessor returns 0 or its default enum
value instead of reading payload bytes: no accessor indexes the cache. -/
theorem bmhd_short_payload_defaults (c : Chunk)
    (hcache : c.cache.length = c.size) (hshort : c.cache.length < 20) :
    BMHDChunk.isValid c = false ∧ BMHDChunk.width c = 0 ∧ BMHDChunk.height c = 0 ∧
      BMHDChunk.left c = 0 ∧ BMHDChunk.top c = 0 ∧ BMHDChunk.bitplanes c = 0 ∧
      BMHDChunk.masking c = BMHDChunk.maskingNone ∧
      BMHDChunk.compression c = BMHDChunk.compressionUncompressed ∧
      BMHDChunk.transparency c = 0 ∧ BMHDChunk.xAspectRatio c = 0 ∧
      BMHDChunk.yAspectRatio c = 0 ∧ BMHDChunk.pageWidth c = 0 ∧
      BMHDChunk.pageHeight c = 0 := by
  have hv : BMHDChunk.isValid c = false := by
    unfold BMHDChunk.isValid
    rw [if_pos (by omega)]
  simp [hv, BMHDChunk.width, BMHDChunk.height, BMHDChunk.left, BMHDChunk.top,
    BMHDChunk.bitplanes, BMHDChunk.masking, BMHDChunk.compression, BMHDChunk.transparency,
    BMHDChunk.xAspectRatio, BMHDChunk.yAspectRatio, BMHDChunk.pageWidth, BMHDChunk.pageHeight]

/-- C10 witness: the short-payload theorem applied to the 10-byte fixture. -/
theorem bmhd_short_payload_defaults_witness :
    BMHDChunk.isValid bmhdShort = false ∧ BMHDChunk.width bmhdShort = 0 ∧
      BMHDChunk.height bmhdShort = 0 ∧ BMHDChunk.left bmhdShort = 0 ∧
      BMHDChunk.top bmhdShort = 0 ∧ BMHDChunk.bitplanes bmhdShort = 0 ∧
      BMHDChunk.masking bmhdShort = BMHDChunk.maskingNone ∧
      BMHDChunk.compression bmhdShort = BMHDChunk.compressionUncompressed ∧
      BMHDChunk.transparency bmhdShort = 0 ∧ BMHDChunk.xAspectRatio bmhdShort = 0 ∧
      BMHDChunk.yAspectRatio bmhdShort = 0 ∧ BMHDChunk.pageWidth bmhdShort = 0 ∧
      BMHDChunk.pageHeight bmhdShort = 0 :=
  bmhd_short_payload_defaults bmhdShort (by decide) (by decide)

/-! ## Claim C1: next-sibling position -/

/-- C1 (amended): the computed next-sibling position equals the payload
start plus the declared size rounded up to the chunk's alignment quantum
(2 or 4 bytes), and is never below the payload start — since the payload
start lies 8 bytes past the chunk's tag, every parsed chunk advances the
stream.  `readStructure` performs no explicit does-not-advance check (see
`nextChunkPos_zero_advance_accepted`); it fails only when the final seek to
this position fails. -/
theorem nextChunkPos_align_up_and_monotone (c : Chunk)
    (halign : c.align = 2 ∨ c.align = 4) :
    c.nextChunkPos = ((c.dataPos + c.size + (c.align - 1)) / c.align) * c.align ∧
      c.dataPos ≤ c.nextChunkPos := by
  have e : c.nextChunkPos =
      if (c.dataPos + c.size) % c.align ≠ 0 then
        (c.dataPos + c.size) + (c.align - (c.dataPos + c.size) % c.align)
      else c.dataPos + c.size := rfl
  rw [e]
  rcases halign with h | h <;> rw [h] <;> refine ⟨?_, ?_⟩ <;> split <;> omega

/-- C1 witness: the rounding formula at the 20-byte BMHD fixture. -/
theorem nextChunkPos_align_up_and_monotone_witness :
    (bmhd1.align = 2 ∨ bmhd1.align = 4) ∧
      (bmhd1.nextChunkPos = ((bmhd1.dataPos + bmhd1.size + (bmhd1.align - 1)) / bmhd1.align) *
          bmhd1.align ∧
        bmhd1.dataPos ≤ bmhd1.nextChunkPos) :=
  ⟨by decide, nextChunkPos_align_up_and_monotone bmhd1 (by decide)⟩

/-- C1 counterexample: the 8-byte stream `"TEST"` with declared size 0
parses successfully into one chunk whose computed next-sibling position (8)
equals its payload start and the stream position at the final seek — the
computed position does not advance past the current stream position, yet
`readStructure` (and the whole `fromDevice` parse) succeeds instead of
failing. -/
theorem nextChunkPos_zero_advance_accepted :
    (Chunk.fromDevice testDev).map
        (fun p => (p.1.map (fun c => (c.nextChunkPos, c.dataPos, c.size)), p.2.pos)) =
      some ([(8, 8, 0)], 8) := by
  decide

/-! ## Claim C6: the recursion guard -/

theorem readInfo_preserves (c : Chunk) (d : Device) (r : Chunk × Device)
    (h : c.readInfo d = some r) :
    r.1.children = c.children ∧ r.1.cache = c.cache ∧ r.1.formType = c.formType ∧
      r.1.recursionCnt = c.recursionCnt ∧ r.1.kind = c.kind ∧ r.1.align = c.align := by
  unfold Chunk.readInfo at h
  dsimp only at h
  split at h
  · simp at h
  · split at h
    · simp at h
    · split at h
      · simp at h
      · cases h
        simp

/-- Beyond the recursion bound, `readStructure` runs the forced default
(no-op) structure reader: the resulting chunk keeps its empty children,
cache and form type — an opaque leaf. -/
theorem readStructure_over_limit (fuel : Nat) (c : Chunk) (d : Device) (r : Chunk × Device)
    (hcnt : RECURSION_PROTECTION < c.recursionCnt)
    (h : Chunk.readStructure fuel c d = some r) :
    r.1.children = c.children ∧ r.1.cache = c.cache ∧ r.1.formType = c.formType := by
  cases fuel with
  | zero => simp [Chunk.readStructure] at h
  | succ fuel =>
    simp only [Chunk.readStructure] at h
    cases hinfo : Chunk.readInfo c d with
    | none => rw [hinfo] at h; simp at h
    | some cd =>
      obtain ⟨h1, h2, h3, h4, _, _⟩ := readInfo_preserves c d cd hinfo
      obtain ⟨c1, d1⟩ := cd
      rw [hinfo] at h
      dsimp only at h
      have hrp : RECURSION_PROTECTION = 10 := rfl
      rw [if_pos (show c1.recursionCnt > RECURSION_PROTECTION - 1 by
        simp only at h1 h2 h3 h4; omega)] at h
      dsimp only at h
      cases hseek : d1.seek c1.nextChunkPos with
      | none => rw [hseek] at h; simp at h
      | some d3 =>
        rw [hseek] at h
        cases h
        exact ⟨h1, h2, h3⟩

/-- A container chunk whose recursion counter is already beyond the bound. -/
def c11 : Chunk := { Chunk.fresh .form with recursionCnt := 11 }

set_option maxRecDepth 10000 in
set_option maxHeartbeats 4000000 in
/-- C6: once a chunk's recursion counter exceeds the fixed bound 10, any
further container chunk is parsed with the default no-op structure reader —
it becomes an opaque leaf with no children — and parsing proceeds; in
particular the depth-15 nested container stream parses successfully, its
chain stopping at 10 nodes with the deepest node a childless leaf. -/
theorem recursion_guard_opaque_leaf :
    (∀ (fuel : Nat) (c : Chunk) (d : Device) (r : Chunk × Device),
        RECURSION_PROTECTION < c.recursionCnt → Chunk.readStructure fuel c d = some r →
          r.1.children = c.children ∧ r.1.cache = c.cache ∧ r.1.formType = c.formType) ∧
      (Chunk.fromDevice nestedDev).map (fun p => p.1.map (countChain 20)) = some [10] := by
  refine ⟨readStructure_over_limit, ?_⟩
  simp [Chunk.fromDevice, Chunk.innerFromDevice, Chunk.innerLoop, Chunk.readStructure,
    Chunk.innerRead, Chunk.readInfo, Chunk.cacheData, Device.read, Device.peek, Device.seek,
    Device.atEnd, dispatchKind, Chunk.fresh, Chunk.isValid, tagIsValid, sChar, ui32, u8,
    Chunk.nextChunkPos, Chunk.alignBytes, Chunk.isContainerTag, Chunk.isChunkType,
    startsWithBytes, chunkVersion, RECURSION_PROTECTION, countChain, nestedDev, nestedForm,
    be32, BMHD_CHUNK, BODY_CHUNK, CAMG_CHUNK, CMAP_CHUNK, FORM_CHUNK, CAT__CHUNK, FILL_CHUNK,
    LIST_CHUNK, PROP_CHUNK, ILBM_FORM_TYPE, PBM__FORM_TYPE, ACBM_FORM_TYPE]

/-- C6 witness: the over-limit chunk `c11` read from the `TEST` stream comes
back as an opaque leaf. -/
theorem recursion_guard_opaque_leaf_witness :
    RECURSION_PROTECTION < c11.recursionCnt ∧
      (Chunk.readStructure 5 c11 testDev).map (fun r => r.1.children.length) = some 0 := by
  refine ⟨by decide, ?_⟩
  cases hr : Chunk.readStructure 5 c11 testDev with
  | none =>
    have hs : (Chunk.readStructure 5 c11 testDev).isSome = true := by decide
    rw [hr] at hs
    simp at hs
  | some r =>
    have h := (recursion_guard_opaque_leaf.1 5 c11 testDev r (by decide) hr).1
    simp [h, c11, Chunk.fresh]

/-! ## Claim C2: classic planar-to-chunky reconstruction -/

/-- C2: with 1–8 bitplanes and neither HAM nor HalfBrite active, the
deinterleaver builds pixel (i, j)'s N-bit palette index by OR-ing, for each
plane k, that plane's bit — taken MSB-first as bit 7 − j of plane byte
`k·rowLen + i` — weighted `1 << k`; the output byte therefore equals the sum
of the set planes' weights.  On the concrete 1-bitplane width-8 row with
plane byte 0b10110000 the output row is [1, 0, 1, 1, 0, 0, 0, 0]. -/
theorem deinterleave_classic_planar_index :
    (∀ (planes : List Nat) (header : Chunk) (camg cmap : Option Chunk) (i j : Nat),
        planes.length = BODYChunk.strideSize header false →
        1 ≤ BMHDChunk.bitplanes header → BMHDChunk.bitplanes header ≤ 8 →
        BODYChunk.safeModeId (some header) camg cmap = 0 →
        i < BMHDChunk.rowLen header → j < 8 →
        (BODYChunk.deinterleave planes header camg cmap false).getD (i * 8 + j) 0 =
          ((List.range (BMHDChunk.bitplanes header)).map (fun k =>
            if (planes.getD (k * BMHDChunk.rowLen header + i) 0).testBit (7 - j) then 2 ^ k
            else 0)).sum) ∧
      (BODYChunk.deinterleave [176, 0] bmhd1 none none false).take 8 =
        [1, 0, 1, 1, 0, 0, 0, 0] := by
  constructor
  · intro planes header camg cmap i j hlen h1 h8 hmode hi hj
    rw [deinterleave_classic planes header camg cmap hlen h1 h8 hmode, classicRow_eq_map,
      getD_map_rowPositions _ _ hi hj, classicPixel_eq_orBits, orBits_eq_sum]
    refine congrArg _ (List.map_congr_left ?_)
    intro k _
    rw [planeBit_eq_testBit]
  · decide

/-- C2 witness: the general index formula at pixel (0, 0) of the concrete
1-bitplane row. -/
theorem deinterleave_classic_planar_index_witness :
    ([176, 0] : List Nat).length = BODYChunk.strideSize bmhd1 false ∧
      BODYChunk.safeModeId (some bmhd1) none none = 0 ∧
      (BODYChunk.deinterleave [176, 0] bmhd1 none none false).getD 0 0 =
        ((List.range (BMHDChunk.bitplanes bmhd1)).map (fun k =>
          if (([176, 0] : List Nat).getD (k * BMHDChunk.rowLen bmhd1 + 0) 0).testBit (7 - 0)
          then 2 ^ k else 0)).sum :=
  ⟨by decide, by decide,
    deinterleave_classic_planar_index.1 [176, 0] bmhd1 none none 0 0 (by decide) (by decide)
      (by decide) (by decide) (by decide) (by decide)⟩

/-! ## The HAM pixel step -/

theorem hamStateAfter_succ (pal : List (Nat × Nat × Nat)) (maxIdx : Nat)
    (prev : Nat × Nat × Nat) (ics : List (Nat × Nat)) {n : Nat} (h : n < ics.length) :
    hamStateAfter pal maxIdx prev ics (n + 1) =
      hamStep pal maxIdx (hamStateAfter pal maxIdx prev ics n) (ics.getD n (0, 0)) := by
  unfold hamStateAfter
  rw [List.take_succ, List.foldl_append, List.getElem?_eq_getElem h]
  simp [List.getD_eq_getElem?_getD, List.getElem?_eq_getElem h]

/-- Pixel (i, j) of a HAM row is the HAM step applied to the previous
pixel's color (black at the start of the row) and the plane loop's
index/control pair. -/
theorem hamRow_pixel (planes : List Nat) (header : Chunk) (camg : Option Chunk) (cm : Chunk)
    (i j : Nat) (hlen : planes.length = BODYChunk.strideSize header false)
    (h5 : 5 ≤ BMHDChunk.bitplanes header) (h8 : BMHDChunk.bitplanes header ≤ 8)
    (hham : BODYChunk.safeModeId (some header) camg (some cm) &&& CAMGChunk.modeHam ≠ 0)
    (hi : i < BMHDChunk.rowLen header) (hj : j < 8) :
    pixelAt (BODYChunk.deinterleave planes header camg (some cm) false) (i * 8 + j) =
      hamStep (CMAPChunk.palette cm false) ((1 <<< (BMHDChunk.bitplanes header - 2)) - 1)
        (if i * 8 + j = 0 then (0, 0, 0)
         else pixelAt (BODYChunk.deinterleave planes header camg (some cm) false)
           (i * 8 + j - 1))
        (hamIdxCtl planes (BMHDChunk.rowLen header) (BMHDChunk.bitplanes header) i j) := by
  rw [deinterleave_ham planes header camg cm hlen h5 h8 hham]
  unfold hamRow
  have hlen2 : ((rowPositions (BMHDChunk.rowLen header)).map
      (fun p => hamIdxCtl planes (BMHDChunk.rowLen header) (BMHDChunk.bitplanes header)
        p.1 p.2)).length = BMHDChunk.rowLen header * 8 := by
    rw [List.length_map, rowPositions_length]
  have hcnt : i * 8 + j < ((rowPositions (BMHDChunk.rowLen header)).map
      (fun p => hamIdxCtl planes (BMHDChunk.rowLen header) (BMHDChunk.bitplanes header)
        p.1 p.2)).length := by
    rw [hlen2]; omega
  rw [hamPixels_pixelAt _ _ _ _ _ hcnt, hamStateAfter_succ _ _ _ _ hcnt,
    getD_map_rowPositions _ _ hi hj]
  congr 1
  rcases Nat.eq_zero_or_pos (i * 8 + j) with hc | hc
  · rw [hc, if_pos rfl]
    rfl
  · rw [if_neg (by omega)]
    obtain ⟨m, hm⟩ : ∃ m, i * 8 + j = m + 1 := ⟨i * 8 + j - 1, by omega⟩
    rw [hm]
    have hmlt : m < ((rowPositions (BMHDChunk.rowLen header)).map
        (fun p => hamIdxCtl planes (BMHDChunk.rowLen header) (BMHDChunk.bitplanes header)
          p.1 p.2)).length := by omega
    rw [← hamPixels_pixelAt _ _ _ _ _ hmlt]
    simp

/-! ## Claim C3: HAM pixel semantics -/

/-- C3: in HAM reconstruction (5–8 bitplanes, HAM mode, color map present)
each pixel's two control bits come from the top two planes (plane
`bp − 2` contributing 2 and plane `bp − 1` contributing 1) and select the
action: control 0 loads the absolute color-map entry at the index formed by
the remaining planes; controls 1, 2, 3 hold the previous pixel's color and
replace the red, blue, or green channel respectively with
`idx · 255 / maxIdx` where `maxIdx = 2^(bp−2) − 1`. -/
theorem deinterleave_ham_pixel_semantics
    (planes : List Nat) (header : Chunk) (camg : Option Chunk) (cm : Chunk) (i j : Nat)
    (hlen : planes.length = BODYChunk.strideSize header false)
    (h5 : 5 ≤ BMHDChunk.bitplanes header) (h8 : BMHDChunk.bitplanes header ≤ 8)
    (hham : BODYChunk.safeModeId (some header) camg (some cm) &&& CAMGChunk.modeHam ≠ 0)
    (hi : i < BMHDChunk.rowLen header) (hj : j < 8) :
    pixelAt (BODYChunk.deinterleave planes header camg (some cm) false) (i * 8 + j) =
      (let bp := BMHDChunk.bitplanes header
       let rowLen := BMHDChunk.rowLen header
       let pal := CMAPChunk.palette cm false
       let maxIdx := 2 ^ (bp - 2) - 1
       let idx := orBits (fun k => planeBit planes rowLen i k j) (bp - 2)
       let ctl := (if planeBit planes rowLen i (bp - 2) j then 2 else 0) +
         (if planeBit planes rowLen i (bp - 1) j then 1 else 0)
       let prev := if i * 8 + j = 0 then (0, 0, 0)
         else pixelAt (BODYChunk.deinterleave planes header camg (some cm) false)
           (i * 8 + j - 1)
       if ctl = 1 then (idx * 255 / maxIdx, prev.2.1, prev.2.2)
       else if ctl = 2 then (prev.1, prev.2.1, idx * 255 / maxIdx)
       else if ctl = 3 then (prev.1, idx * 255 / maxIdx, prev.2.2)
       else if idx < pal.length then pal.getD idx (0, 0, 0)
       else prev) := by
  rw [hamRow_pixel planes header camg cm i j hlen h5 h8 hham hi hj,
    hamIdxCtl_eq planes _ i j (by omega)]
  have hsh : (1 : Nat) <<< (BMHDChunk.bitplanes header - 2) =
      2 ^ (BMHDChunk.bitplanes header - 2) := by
    simp [Nat.shiftLeft_eq]
  have horb := orBits_lt (fun k => planeBit planes (BMHDChunk.rowLen header) i k j)
    (BMHDChunk.bitplanes header - 2)
  have hmaxpos : 0 < 2 ^ (BMHDChunk.bitplanes header - 2) - 1 := by
    have h1 : (2 : Nat) ^ 3 ≤ 2 ^ (BMHDChunk.bitplanes header - 2) :=
      Nat.pow_le_pow_right (by omega) (by omega)
    omega
  have hscale : u8 ((orBits (fun k => planeBit planes (BMHDChunk.rowLen header) i k j)
        (BMHDChunk.bitplanes header - 2)) * 255 /
        (2 ^ (BMHDChunk.bitplanes header - 2) - 1)) =
      (orBits (fun k => planeBit planes (BMHDChunk.rowLen header) i k j)
        (BMHDChunk.bitplanes header - 2)) * 255 /
        (2 ^ (BMHDChunk.bitplanes header - 2) - 1) := by
    have hle2 : (orBits (fun k => planeBit planes (BMHDChunk.rowLen header) i k j)
        (BMHDChunk.bitplanes header - 2)) * 255 /
        (2 ^ (BMHDChunk.bitplanes header - 2) - 1) ≤ 255 := by
      calc (orBits (fun k => planeBit planes (BMHDChunk.rowLen header) i k j)
          (BMHDChunk.bitplanes header - 2)) * 255 /
          (2 ^ (BMHDChunk.bitplanes header - 2) - 1) ≤
          (2 ^ (BMHDChunk.bitplanes header - 2) - 1) * 255 /
          (2 ^ (BMHDChunk.bitplanes header - 2) - 1) :=
            Nat.div_le_div_right (Nat.mul_le_mul_right _ (by omega))
        _ = 255 := Nat.mul_div_cancel_left 255 hmaxpos
    exact Nat.mod_eq_of_lt (by omega)
  unfold hamStep
  rw [hsh]
  dsimp only
  rw [hscale]

/-- C3 witness: the HAM fixture whose first pixel has control 1 (replace
red) and index 1 decodes to (1·255/7, 0, 0) = (36, 0, 0). -/
theorem deinterleave_ham_pixel_semantics_witness :
    pixelAt (BODYChunk.deinterleave planesHold bmhd5 (some camgHam) (some cmap1) false) 0 =
      (36, 0, 0) := by
  have h := deinterleave_ham_pixel_semantics planesHold bmhd5 (some camgHam) cmap1 0 0
    (by decide) (by decide) (by decide) (by decide) (by decide) (by decide)
  rw [show (0 : Nat) * 8 + 0 = 0 from rfl] at h
  rw [h]
  decide

/-! ## Claim C4: HAM row state -/

/-- On uncompressed data with an empty read buffer, one `strideRead` call
consumes exactly one stride from the device and deinterleaves it. -/
theorem strideRead_uncompressed (body : Chunk) (d : Device) (hdr : Chunk)
    (camg cmap : Option Chunk)
    (hvb : BODYChunk.isValid body = true)
    (hcomp : BMHDChunk.compression hdr = BMHDChunk.compressionUncompressed)
    (hrs : 0 < BODYChunk.strideSize hdr false)
    (hdata : d.pos + BODYChunk.strideSize hdr false ≤ d.data.length) :
    BODYChunk.strideRead body d [] (some hdr) camg cmap false =
      (BODYChunk.deinterleave ((d.data.drop d.pos).take (BODYChunk.strideSize hdr false))
          hdr camg cmap false,
        { d with pos := d.pos + BODYChunk.strideSize hdr false }, []) := by
  have hae : d.atEnd = false := by
    simp only [Device.atEnd]
    simp only [decide_eq_false_iff_not]
    omega
  have hsteplen : ((d.data.drop d.pos).take (BODYChunk.strideSize hdr false)).length =
      BODYChunk.strideSize hdr false := by
    rw [List.length_take, List.length_drop]
    omega
  unfold BODYChunk.strideRead
  rw [hvb]
  simp only [Bool.not_true, Bool.false_eq_true, if_false, hae, List.length_nil]
  rw [if_neg (by simp)]
  rw [if_pos (show ¬False ∧ 0 < BODYChunk.strideSize hdr false from ⟨by simp, hrs⟩)]
  have hstep : strideStep hdr d (BODYChunk.strideSize hdr false) =
      ((d.data.drop d.pos).take (BODYChunk.strideSize hdr false),
        { d with
          pos := d.pos +
            ((d.data.drop d.pos).take (BODYChunk.strideSize hdr false)).length }) := by
    unfold strideStep
    rw [hcomp]
    rw [if_neg (by unfold BMHDChunk.compressionUncompressed BMHDChunk.compressionRle; omega)]
    rw [if_pos rfl]
    rfl
  rw [hstep]
  dsimp only
  rw [hsteplen]
  rw [if_neg (by omega)]
  simp only [List.nil_append]
  rw [List.take_of_length_le (le_of_eq hsteplen), List.drop_of_length_le (le_of_eq hsteplen)]

/-- C4 (amended): the HAM held color carries across pixels within a row
(see `deinterleave_ham_pixel_semantics`) and is re-initialized at the start
of every row to black (0, 0, 0) — not to the color map's entry 0 (see
`deinterleave_ham_reset_not_palette_zero`): the first pixel of every row's
output is the HAM step applied to black.  Consequently two consecutive rows
read from identical plane data decode to identical output. -/
theorem deinterleave_ham_row_reset_and_determinism :
    (∀ (planes : List Nat) (header : Chunk) (camg : Option Chunk) (cm : Chunk),
        planes.length = BODYChunk.strideSize header false →
        5 ≤ BMHDChunk.bitplanes header → BMHDChunk.bitplanes header ≤ 8 →
        BODYChunk.safeModeId (some header) camg (some cm) &&& CAMGChunk.modeHam ≠ 0 →
        0 < BMHDChunk.rowLen header →
        pixelAt (BODYChunk.deinterleave planes header camg (some cm) false) 0 =
          hamStep (CMAPChunk.palette cm false)
            ((1 <<< (BMHDChunk.bitplanes header - 2)) - 1) (0, 0, 0)
            (hamIdxCtl planes (BMHDChunk.rowLen header) (BMHDChunk.bitplanes header) 0 0)) ∧
      (∀ (body : Chunk) (d : Device) (hdr : Chunk) (camg cmap : Option Chunk),
        BODYChunk.isValid body = true →
        BMHDChunk.compression hdr = BMHDChunk.compressionUncompressed →
        0 < BODYChunk.strideSize hdr false →
        d.pos + 2 * BODYChunk.strideSize hdr false ≤ d.data.length →
        (d.data.drop d.pos).take (BODYChunk.strideSize hdr false) =
          (d.data.drop (d.pos + BODYChunk.strideSize hdr false)).take
            (BODYChunk.strideSize hdr false) →
        (BODYChunk.strideRead body d [] (some hdr) camg cmap false).1 =
          (BODYChunk.strideRead body
            (BODYChunk.strideRead body d [] (some hdr) camg cmap false).2.1
            (BODYChunk.strideRead body d [] (some hdr) camg cmap false).2.2
            (some hdr) camg cmap false).1) := by
  constructor
  · intro planes header camg cm hlen h5 h8 hham hrow
    have h := hamRow_pixel planes header camg cm 0 0 hlen h5 h8 hham hrow (by omega)
    rw [show (0 : Nat) * 8 + 0 = 0 from rfl] at h
    rw [h, if_pos rfl]
  · intro body d hdr camg cmap hvb hcomp hrs hdata hrows
    rw [strideRead_uncompressed body d hdr camg cmap hvb hcomp hrs (by omega)]
    dsimp only
    rw [strideRead_uncompressed body _ hdr camg cmap hvb hcomp hrs (by dsimp only; omega)]
    dsimp only
    rw [hrows]

/-- C4 counterexample: with color-map entry 0 = (10, 20, 30) and a first
pixel holding with control 1 (replace red by 36), the decoded pixel is
(36, 0, 0): the held color starts at black, not at the color map's entry 0,
which would have produced (36, 20, 30). -/
theorem deinterleave_ham_reset_not_palette_zero :
    pixelAt (BODYChunk.deinterleave planesHold bmhd5 (some camgHam) (some cmap1) false) 0 =
        (36, 0, 0) ∧
      hamStep (CMAPChunk.palette cmap1 false) (2 ^ 3 - 1)
          ((CMAPChunk.palette cmap1 false).getD 0 (0, 0, 0))
          (hamIdxCtl planesHold (BMHDChunk.rowLen bmhd5) (BMHDChunk.bitplanes bmhd5) 0 0) =
        (36, 20, 30) ∧
      ((36, 0, 0) : Nat × Nat × Nat) ≠ (36, 20, 30) := by
  refine ⟨?_, by decide, by decide⟩
  decide

/-- C4 witness: two identical uncompressed HAM rows decode identically. -/
theorem deinterleave_ham_row_reset_and_determinism_witness :
    (BODYChunk.strideRead body0 { data := planesOOR ++ planesOOR, pos := 0 } []
        (some bmhd5) (some camgHam) (some cmap1) false).1 =
      (BODYChunk.strideRead body0
        (BODYChunk.strideRead body0 { data := planesOOR ++ planesOOR, pos := 0 } []
          (some bmhd5) (some camgHam) (some cmap1) false).2.1
        (BODYChunk.strideRead body0 { data := planesOOR ++ planesOOR, pos := 0 } []
          (some bmhd5) (some camgHam) (some cmap1) false).2.2
        (some bmhd5) (some camgHam) (some cmap1) false).1 :=
  deinterleave_ham_row_reset_and_determinism.2 body0
    { data := planesOOR ++ planesOOR, pos := 0 } bmhd5 (some camgHam) (some cmap1)
    (by decide) (by decide) (by decide) (by decide) (by decide)

/-! ## Claim C7: out-of-range palette indexes -/

/-- C7 (amended): an out-of-range color-map index never fails the row — the
full row is still produced — but the substituted pixel differs between the
modes: in HAM (control 0) the pixel keeps the previous pixel's held color
(black only at the start of a row), while in HalfBrite the zero-initialized
cell is left, i.e. the pixel becomes 0. -/
theorem deinterleave_palette_out_of_range_tolerated :
    (∀ (planes : List Nat) (header : Chunk) (camg : Option Chunk) (cm : Chunk) (i j : Nat),
        planes.length = BODYChunk.strideSize header false →
        5 ≤ BMHDChunk.bitplanes header → BMHDChunk.bitplanes header ≤ 8 →
        BODYChunk.safeModeId (some header) camg (some cm) &&& CAMGChunk.modeHam ≠ 0 →
        i < BMHDChunk.rowLen header → j < 8 →
        (hamIdxCtl planes (BMHDChunk.rowLen header) (BMHDChunk.bitplanes header) i j).2 = 0 →
        (CMAPChunk.palette cm false).length ≤
          (hamIdxCtl planes (BMHDChunk.rowLen header) (BMHDChunk.bitplanes header) i j).1 →
        pixelAt (BODYChunk.deinterleave planes header camg (some cm) false) (i * 8 + j) =
          (if i * 8 + j = 0 then (0, 0, 0)
           else pixelAt (BODYChunk.deinterleave planes header camg (some cm) false)
             (i * 8 + j - 1)) ∧
        (BODYChunk.deinterleave planes header camg (some cm) false).length =
          BMHDChunk.rowLen header * 8 * 3) ∧
      (∀ (planes : List Nat) (header : Chunk) (camg : Option Chunk) (cm : Chunk) (i j : Nat),
        planes.length = BODYChunk.strideSize header false →
        1 ≤ BMHDChunk.bitplanes header → BMHDChunk.bitplanes header ≤ 8 →
        BODYChunk.safeModeId (some header) camg (some cm) &&& CAMGChunk.modeHam = 0 →
        BODYChunk.safeModeId (some header) camg (some cm) &&& CAMGChunk.modeHalfBrite ≠ 0 →
        i < BMHDChunk.rowLen header → j < 8 →
        CMAPChunk.count cm ≤
          (hbIdxCtl planes (BMHDChunk.rowLen header) (BMHDChunk.bitplanes header) i j).1 →
        (BODYChunk.deinterleave planes header camg (some cm) false).getD (i * 8 + j) 0 = 0 ∧
        (BODYChunk.deinterleave planes header camg (some cm) false).length =
          BMHDChunk.rowLen header * 8) := by
  constructor
  · intro planes header camg cm i j hlen h5 h8 hham hi hj hctl hidx
    constructor
    · rw [hamRow_pixel planes header camg cm i j hlen h5 h8 hham hi hj]
      unfold hamStep
      rw [hctl]
      rw [if_neg (by omega), if_neg (by omega), if_neg (by omega),
        if_neg (Nat.not_lt.2 hidx)]
    · rw [deinterleave_ham planes header camg cm hlen h5 h8 hham]
      unfold hamRow
      rw [hamPixels_length, List.length_map, rowPositions_length]
      ring
  · intro planes header camg cm i j hlen h1 h8 hham hhb hi hj hidx
    rw [deinterleave_halfbrite planes header camg cm hlen h1 h8 hham hhb]
    unfold halfBriteRow
    constructor
    · rw [getD_map_rowPositions _ _ hi hj]
      dsimp only
      rw [if_neg (Nat.not_lt.2 hidx)]
    · rw [List.length_map, rowPositions_length]

/-- C7 counterexample: the HAM fixture's second pixel has control 0 and
index 1, beyond the one-entry palette; its decoded value is the held color
(10, 20, 30), not the zero/black pixel the claim predicts. -/
theorem deinterleave_ham_out_of_range_not_black :
    pixelAt (BODYChunk.deinterleave planesOOR bmhd5 (some camgHam) (some cmap1) false) 1 =
        (10, 20, 30) ∧
      (CMAPChunk.palette cmap1 false).length ≤
        (hamIdxCtl planesOOR (BMHDChunk.rowLen bmhd5) (BMHDChunk.bitplanes bmhd5) 0 1).1 ∧
      ((10, 20, 30) : Nat × Nat × Nat) ≠ (0, 0, 0) :=
  ⟨by decide, by decide, by decide⟩

/-- C7 witness: the out-of-range tolerance at the HAM fixture's second pixel
(held color) and at the same planes in HalfBrite mode (zero pixel). -/
theorem deinterleave_palette_out_of_range_tolerated_witness :
    pixelAt (BODYChunk.deinterleave planesOOR bmhd5 (some camgHam) (some cmap1) false) 1 =
        pixelAt (BODYChunk.deinterleave planesOOR bmhd5 (some camgHam) (some cmap1) false) 0 ∧
      (BODYChunk.deinterleave planesOOR bmhd5 (some camgHB) (some cmap1) false).getD 1 0 = 0 := by
  constructor
  · have h := (deinterleave_palette_out_of_range_tolerated.1 planesOOR bmhd5 (some camgHam)
      cmap1 0 1 (by decide) (by decide) (by decide) (by decide) (by decide) (by decide)
      (by decide) (by decide)).1
    simpa using h
  · have h := (deinterleave_palette_out_of_range_tolerated.2 planesOOR bmhd5 (some camgHB)
      cmap1 0 1 (by decide) (by decide) (by decide) (by decide) (by decide) (by decide)
      (by decide) (by decide)).1
    simpa using h

/-! ## Claim C5: the Maya RLE decompressor -/

theorem rleMaya_length_le (olen : Nat) : ∀ (input out rem : List Nat),
    rleMayaDecompress input olen = some (out, rem) → out.length ≤ olen := by
  induction olen using Nat.strong_induction_on with
  | _ olen ih =>
    intro input out rem h
    unfold rleMayaDecompress at h
    by_cases h0 : olen = 0
    · rw [dif_pos h0] at h
      cases h
      simp
    · rw [dif_neg h0] at h
      cases input with
      | nil =>
        cases h
        simp
      | cons n rest =>
        dsimp only at h
        have hand : n &&& 127 ≤ 127 := Nat.and_le_right
        by_cases hbrk : olen < 128 ∧ olen < (n &&& 127) + 1
        · rw [if_pos hbrk] at h
          cases h
          simp
        · rw [if_neg hbrk] at h
          by_cases hbit : n &&& 128 ≠ 0
          · rw [if_pos hbit] at h
            cases rest with
            | nil =>
              cases h
              simp
            | cons b rest2 =>
              dsimp only at h
              cases hrec : rleMayaDecompress rest2 (olen - ((n &&& 127) + 1)) with
              | none => rw [hrec] at h; simp at h
              | some pr =>
                obtain ⟨out1, rem1⟩ := pr
                rw [hrec] at h
                have hb := ih (olen - ((n &&& 127) + 1)) (by omega) rest2 out1 rem1 hrec
                cases h
                simp only [List.length_append, List.length_replicate]
                omega
          · rw [if_neg hbit] at h
            by_cases hsh : rest.length < (n &&& 127) + 1
            · rw [if_pos hsh] at h
              simp at h
            · rw [if_neg hsh] at h
              cases hrec : rleMayaDecompress (rest.drop ((n &&& 127) + 1))
                  (olen - ((n &&& 127) + 1)) with
              | none => rw [hrec] at h; simp at h
              | some pr =>
                obtain ⟨out1, rem1⟩ := pr
                rw [hrec] at h
                have hb := ih (olen - ((n &&& 127) + 1)) (by omega)
                  (rest.drop ((n &&& 127) + 1)) out1 rem1 hrec
                have htk : (rest.take ((n &&& 127) + 1)).length ≤ (n &&& 127) + 1 := by
                  simp [List.length_take]
                cases h
                simp only [List.length_append]
                omega

/-- C5: the Maya RLE decompressor interprets each control byte `n` as:
high bit set — replicate the next byte `(n & 0x7F) + 1` times; high bit
clear — copy `(n & 0x7F) + 1` literal bytes; and when fewer than 128 output
bytes remain and the indicated run would overflow the remaining space, it
stops before the control byte without consuming it.  Consequently the
produced output never exceeds the requested length. -/
theorem rleMayaDecompress_control_semantics :
    (∀ (n : Nat) (input : List Nat) (olen : Nat), 0 < olen → olen < 128 →
        olen < (n &&& 127) + 1 →
        rleMayaDecompress (n :: input) olen = some ([], n :: input)) ∧
      (∀ (n b : Nat) (input : List Nat) (olen : Nat), 0 < olen →
        (n &&& 127) + 1 ≤ olen → n &&& 128 ≠ 0 →
        rleMayaDecompress (n :: b :: input) olen =
          (rleMayaDecompress input (olen - ((n &&& 127) + 1))).map
            (fun p => (List.replicate ((n &&& 127) + 1) b ++ p.1, p.2))) ∧
      (∀ (n : Nat) (input : List Nat) (olen : Nat), 0 < olen →
        (n &&& 127) + 1 ≤ olen → n &&& 128 = 0 → (n &&& 127) + 1 ≤ input.length →
        rleMayaDecompress (n :: input) olen =
          (rleMayaDecompress (input.drop ((n &&& 127) + 1)) (olen - ((n &&& 127) + 1))).map
            (fun p => (input.take ((n &&& 127) + 1) ++ p.1, p.2))) ∧
      (∀ (input : List Nat) (olen : Nat) (out rem : List Nat),
        rleMayaDecompress input olen = some (out, rem) → out.length ≤ olen) := by
  refine ⟨?_, ?_, ?_, fun input olen => rleMaya_length_le olen input⟩
  · intro n input olen h0 h128 hrr
    conv_lhs => unfold rleMayaDecompress
    rw [dif_neg (by omega)]
    dsimp only
    rw [if_pos ⟨h128, hrr⟩]
  · intro n b input olen h0 hrr hbit
    conv_lhs => unfold rleMayaDecompress
    rw [dif_neg (by omega)]
    dsimp only
    rw [if_neg (by omega), if_pos hbit]
    cases hrec : rleMayaDecompress input (olen - ((n &&& 127) + 1)) with
    | none => rfl
    | some pr => rfl
  · intro n input olen h0 hrr hbit hlen
    conv_lhs => unfold rleMayaDecompress
    rw [dif_neg (by omega)]
    dsimp only
    rw [if_neg (by omega), if_neg (by simpa using hbit), if_neg (by omega)]
    cases hrec : rleMayaDecompress (input.drop ((n &&& 127) + 1))
        (olen - ((n &&& 127) + 1)) with
    | none => rfl
    | some pr => rfl

/-- C5 witness: control byte 0x82 (replicate 3×) on the stream [0x82, 7]
with 10 output bytes requested. -/
theorem rleMayaDecompress_control_semantics_witness :
    rleMayaDecompress [130, 7] 10 =
      (rleMayaDecompress [] (10 - ((130 &&& 127) + 1))).map
        (fun p => (List.replicate ((130 &&& 127) + 1) 7 ++ p.1, p.2)) :=
  rleMayaDecompress_control_semantics.2.1 130 7 [] 10 (by decide) (by decide) (by decide)

/-! ## Claim C8: failed scanlines abort the decode -/

/-- C8: when a scanline's decompression does not produce exactly the
expected stride byte count, `strideRead` returns the empty row; and any row
whose `strideRead` comes back empty makes the whole row loop of
`readStandardImage` fail — `read()` then returns false and no partial image
is handed to the caller. -/
theorem strideRead_failure_aborts_decode :
    (∀ (body : Chunk) (d : Device) (rb : List Nat) (hdr : Chunk) (camg cmap : Option Chunk)
        (isPbm : Bool),
        BODYChunk.isValid body = true →
        d.atEnd = false →
        rb.length < BODYChunk.strideSize hdr isPbm →
        (strideStep hdr d (BODYChunk.strideSize hdr isPbm)).1.length ≠
          BODYChunk.strideSize hdr isPbm →
        BODYChunk.strideRead body d rb (some hdr) camg cmap isPbm =
          ([], (strideStep hdr d (BODYChunk.strideSize hdr isPbm)).2, rb)) ∧
      (∀ (body : Chunk) (header camg cmap : Option Chunk) (isPbm : Bool) (h : Nat)
        (d : Device) (rb : List Nat),
        (BODYChunk.strideRead body d rb header camg cmap isPbm).1 = [] →
        readRows body header camg cmap isPbm (h + 1) d rb = none) := by
  constructor
  · intro body d rb hdr camg cmap isPbm hvb hae hrb hbad
    unfold BODYChunk.strideRead
    rw [hvb]
    simp only [Bool.not_true, Bool.false_eq_true, if_false, hae]
    rw [if_neg (by simp)]
    rw [if_pos (show ¬False ∧ rb.length < BODYChunk.strideSize hdr isPbm from ⟨by simp, hrb⟩)]
    rw [if_pos hbad]
  · intro body header camg cmap isPbm h d rb hfail
    simp only [readRows]
    rw [if_pos hfail]

/-- C8 witness: an RLE body whose only input byte announces a literal run
with no data decompresses short, so the row is empty and a 3-row decode
returns no image. -/
theorem strideRead_failure_aborts_decode_witness :
    BODYChunk.strideRead body0 { data := [0], pos := 0 } [] (some bmhd5r) none none false =
        ([], (strideStep bmhd5r { data := [0], pos := 0 }
          (BODYChunk.strideSize bmhd5r false)).2, []) ∧
      readRows body0 (some bmhd5r) none none false 3 { data := [0], pos := 0 } [] = none :=
  ⟨strideRead_failure_aborts_decode.1 body0 { data := [0], pos := 0 } [] bmhd5r none none
      false (by decide) (by decide) (by decide)
      (by
        simp [strideStep, packbitsDecompress, BMHDChunk.compression, BMHDChunk.isValid,
          BMHDChunk.compressionRle, BMHDChunk.compressionUncompressed, sChar, bmhd5r,
          Chunk.fresh, BMHD_CHUNK, BODYChunk.strideSize, BMHDChunk.rowLen, BMHDChunk.width,
          BMHDChunk.bitplanes, ui16, u8]),
    strideRead_failure_aborts_decode.2 body0 (some bmhd5r) none none false 2
      { data := [0], pos := 0 } []
      (by
        simp [BODYChunk.strideRead, strideStep, packbitsDecompress, BODYChunk.isValid, body0,
          BMHDChunk.compression, BMHDChunk.isValid, BMHDChunk.compressionRle,
          BMHDChunk.compressionUncompressed, sChar, bmhd5r, Chunk.fresh, BMHD_CHUNK, BODY_CHUNK,
          BODYChunk.strideSize, BMHDChunk.rowLen, BMHDChunk.width, BMHDChunk.bitplanes, ui16,
          u8, Device.atEnd, Device.read])⟩

end KIF
